import Mathlib

/-!
Verification of the real-time collaborative canvas server.

Shallow embedding of the repository's core:
* `DrawingState` (operation log with tombstone-based undo/redo),
  from the server-side drawing-state module;
* the Socket.IO gateway handlers (`draw-stroke`, `undo`, `redo`,
  `clear-canvas`) from `src/server/server.js`;
* `RoomManager` (room registry, color allocation) from `src/server/rooms.js`;
* the client-side full redraw (`CanvasManager.redrawCanvas`,
  `handleUndo`, `handleRedo`).

JavaScript objects are duck-typed; operations are modelled as a record
carrying every field the code reads, with JS `undefined` rendered as a
default value (`none` for identity fields that the code may leave
undefined).  JS `Set` is modelled as `Finset`, JS `Map` as an
association list in insertion order.
-/

/-- An operation record as stored in the log.  Fields mirror the JS
object: `type` is the duck-typed tag string (`"stroke"` or `"clear"`),
`id` and `timestamp` are stamped by the server, `userId`/`userName` may
be `undefined` (`none`), and the remaining fields are the stroke
payload. -/
structure Operation where
  type : String
  id : Nat := 0
  timestamp : Nat := 0
  userId : Option String := none
  userName : Option String := none
  points : List (Int × Int) := []
  color : String := ""
  size : Nat := 0
  tool : String := ""

deriving instance DecidableEq for Operation

/-- `DrawingState` from the drawing-state module: ordered operation
history, monotone id counter, and the set of undone operation ids
(the tombstone set, a JS `Set`). -/
structure DrawingState where
  operations : List Operation := []
  operationCounter : Nat := 0
  undoneOperations : Finset Nat := ∅

deriving instance DecidableEq for DrawingState

/-- The constructor state: empty history, counter 0, empty tombstone set. -/
def initialState : DrawingState :=
  { operations := [], operationCounter := 0, undoneOperations := ∅ }

/-- `addOperation(operation)`: builds `{...operation, id: counter++,
timestamp: Date.now()}` (so the server overwrites any client-supplied
`id`/`timestamp`), pushes it, and clears the undone set.  `Date.now()`
is passed in as `now`.  Returns the stored operation and the new state. -/
def addOperation (s : DrawingState) (operation : Operation) (now : Nat) :
    Operation × DrawingState :=
  let op := { operation with id := s.operationCounter, timestamp := now }
  (op,
   { operations := s.operations ++ [op],
     operationCounter := s.operationCounter + 1,
     undoneOperations := ∅ })

/-- The `{type, operationId}` object returned by `undo`/`redo` and
broadcast to the room. -/
structure UndoMsg where
  type : String
  operationId : Nat

deriving instance DecidableEq for UndoMsg

/-- `undo()`: scan `operations` from the last index downward for the
first entry whose id is not in `undoneOperations`; add that id to the
set and return `{type:'undo', operationId}`, else return `null`.
The backward index loop is the first match on the reversed list. -/
def undo (s : DrawingState) : Option UndoMsg × DrawingState :=
  match s.operations.reverse.find? (fun op => decide (op.id ∉ s.undoneOperations)) with
  | some op =>
      (some { type := "undo", operationId := op.id },
       { s with undoneOperations := insert op.id s.undoneOperations })
  | none => (none, s)

/-- One iteration of the loop inside `redo()`: replace the accumulator
by `op.id` whenever `op.id` is in the undone set and exceeds it. -/
def redoScanStep (undone : Finset Nat) (acc : Int) (op : Operation) : Int :=
  if op.id ∈ undone ∧ (op.id : Int) > acc then (op.id : Int) else acc

/-- The scan inside `redo()`: fold the loop body over `operations`
starting from the sentinel `lastUndoneId = -1`. -/
def redoScan (ops : List Operation) (undone : Finset Nat) : Int :=
  ops.foldl (redoScanStep undone) (-1)

/-- `redo()`: run the scan; if the sentinel moved, delete the found id
from the undone set and return `{type:'redo', operationId}`, else `null`. -/
def redo (s : DrawingState) : Option UndoMsg × DrawingState :=
  let lastUndoneId := redoScan s.operations s.undoneOperations
  if lastUndoneId ≠ -1 then
    (some { type := "redo", operationId := lastUndoneId.toNat },
     { s with undoneOperations := s.undoneOperations.erase lastUndoneId.toNat })
  else
    (none, s)

/-- `getActiveOperations()`: operations whose id is not undone. -/
def getActiveOperations (s : DrawingState) : List Operation :=
  s.operations.filter (fun op => decide (op.id ∉ s.undoneOperations))

/-- `clear()`: appends a bare `{type:'clear', id: counter++, timestamp}`
operation and clears the undone set, like `addOperation`. -/
def clear (s : DrawingState) (now : Nat) : Operation × DrawingState :=
  let clearOp : Operation := { type := "clear", id := s.operationCounter, timestamp := now }
  (clearOp,
   { operations := s.operations ++ [clearOp],
     operationCounter := s.operationCounter + 1,
     undoneOperations := ∅ })

/-- A payload-less stroke input, for concrete scenarios. -/
def stroke0 : Operation := { type := "stroke" }

/-- Log `[A(id0), B(id1)]`. -/
def sAB : DrawingState :=
  (addOperation (addOperation initialState stroke0 0).2 stroke0 0).2

/-- `sAB` after one `undo()` (id 1 tombstoned). -/
def sABu : DrawingState := (undo sAB).2

/-- `sABu` after appending C (id 2). -/
def sABC : DrawingState := (addOperation sABu stroke0 0).2

/-- Log with appended ids `[0, 1, 2]` and empty tombstone set. -/
def s012 : DrawingState :=
  (addOperation (addOperation (addOperation initialState stroke0 0).2 stroke0 0).2 stroke0 0).2

/-- `s012` after three `undo()` calls: tombstone set `{0, 1, 2}`. -/
def t012 : DrawingState := (undo (undo (undo s012).2).2).2

/-- A client intent reaching one room's `DrawingState`: `draw-stroke`
(with the operation object built by the gateway and the `Date.now()`
value), `clear-canvas`, `undo`, `redo`. -/
inductive DrawEvent where
  | add : Operation → Nat → DrawEvent
  | clearCanvas : Nat → DrawEvent
  | undoReq : DrawEvent
  | redoReq : DrawEvent

/-- Apply one intent to the log, discarding the returned message. -/
def applyEvent (s : DrawingState) : DrawEvent → DrawingState
  | DrawEvent.add op now => (addOperation s op now).2
  | DrawEvent.clearCanvas now => (clear s now).2
  | DrawEvent.undoReq => (undo s).2
  | DrawEvent.redoReq => (redo s).2

/-- The log state reached from the constructor state by a sequence of
intents. -/
def runEvents (es : List DrawEvent) : DrawingState :=
  es.foldl applyEvent initialState

/-- One stroke as rendered on the canvas: the arguments the client
passes to `renderStroke(points, color, size, isEraser)`. -/
structure RenderedStroke where
  points : List (Int × Int)
  color : String
  size : Nat
  eraser : Bool

deriving instance DecidableEq for RenderedStroke

/-- One iteration of the loop in `CanvasManager.redrawCanvas`: skip a
tombstoned operation; render a `stroke` onto the accumulated surface;
on a `clear`, wipe the surface (`clearRect`); any other tag is ignored. -/
def renderStep (undone : Finset Nat) (acc : List RenderedStroke) (op : Operation) :
    List RenderedStroke :=
  if op.id ∈ undone then acc
  else if op.type = "stroke" then
    acc ++ [{ points := op.points, color := op.color, size := op.size,
              eraser := op.tool == "eraser" }]
  else if op.type = "clear" then []
  else acc

/-- `redrawCanvas()`: clear the surface, then fold every operation of
the local history through `renderStep`.  The canvas surface is modelled
as the list of strokes drawn since the last wipe. -/
def redrawCanvas (ops : List Operation) (undone : Finset Nat) : List RenderedStroke :=
  ops.foldl (renderStep undone) []

/-- The client replica: local operation history plus local tombstone
set (`CanvasManager.operations` / `CanvasManager.undoneOperations`). -/
structure ClientCanvas where
  operations : List Operation
  undoneOperations : Finset Nat

deriving instance DecidableEq for ClientCanvas

/-- `handleUndo(undoData)`: add the broadcast id to the local tombstone
set (the subsequent full redraw is `redrawCanvas` on the new state). -/
def handleUndo (c : ClientCanvas) (operationId : Nat) : ClientCanvas :=
  { c with undoneOperations := insert operationId c.undoneOperations }

/-- `handleRedo(redoData)`: remove the broadcast id from the local
tombstone set. -/
def handleRedo (c : ClientCanvas) (operationId : Nat) : ClientCanvas :=
  { c with undoneOperations := c.undoneOperations.erase operationId }

/-- Stroke A(id 0) with a concrete payload. -/
def opA6 : Operation :=
  { type := "stroke", id := 0, points := [(1, 2)], color := "#FF6B6B", size := 3,
    tool := "brush" }

/-- Clear operation with id 1. -/
def clearOp6 : Operation := { type := "clear", id := 1 }

/-- What `renderStroke` receives for `opA6`. -/
def renderedA6 : RenderedStroke :=
  { points := [(1, 2)], color := "#FF6B6B", size := 3, eraser := false }

/-- A room member as built by `RoomManager.addUser`. -/
structure User where
  id : String
  name : String
  color : String
  cursor : Option (Int × Int) := none
  joinedAt : Nat := 0

deriving instance DecidableEq for User

/-- A room as created by `RoomManager.getRoom`: drawing state, the
socket-id-to-user map (JS `Map`, insertion ordered) and the used-color
set (JS `Set`). -/
structure Room where
  id : String
  drawingState : DrawingState
  users : List (String × User)
  usedColors : Finset String
  createdAt : Nat

deriving instance DecidableEq for Room

/-- The fixed 12-entry color palette (`this.userColors`). -/
def userColors : List String :=
  ["#FF6B6B", "#4ECDC4", "#45B7D1", "#FFA07A",
   "#98D8C8", "#F7DC6F", "#BB8FCE", "#85C1E2",
   "#F8B739", "#52B788", "#E76F51", "#2A9D8F"]

/-- `RoomManager`: the room-id-to-room map (JS `Map`, insertion order). -/
structure RoomManager where
  rooms : List (String × Room)

deriving instance DecidableEq for RoomManager

/-- `getRoom(roomId)`: return the existing room, or lazily create a
fresh one (new `DrawingState`, no users, no used colors) and register
it.  `Date.now()` is passed as `now`.  Returns the room and the
possibly-extended manager. -/
def getRoom (rm : RoomManager) (roomId : String) (now : Nat) : Room × RoomManager :=
  match rm.rooms.lookup roomId with
  | some room => (room, rm)
  | none =>
      let room : Room :=
        { id := roomId, drawingState := initialState, users := [],
          usedColors := ∅, createdAt := now }
      (room, { rooms := rm.rooms ++ [(roomId, room)] })

/-- Re-register a mutated room object under its id (in JS the room is
mutated in place through the reference returned by `getRoom`). -/
def setRoom (rm : RoomManager) (roomId : String) (room : Room) : RoomManager :=
  { rooms := rm.rooms.map (fun p => if p.1 = roomId then (roomId, room) else p) }

/-- JS `Map.prototype.set`: replace in place if the key exists, else
append. -/
def mapSet (m : List (String × User)) (key : String) (v : User) : List (String × User) :=
  if m.any (fun p => decide (p.1 = key)) then
    m.map (fun p => if p.1 = key then (key, v) else p)
  else
    m ++ [(key, v)]

/-- `userInfo.name || 'User' + (size+1)` — JS `||` treats the empty
string as falsy. -/
def jsNameOr (userName : Option String) (n : Nat) : String :=
  match userName with
  | some s => if s = "" then "User" ++ toString n else s
  | none => "User" ++ toString n

/-- The color picked by `addUser`: the head of the palette filtered to
colors not in the used set; when that filter is empty, the documented
modulo fallback `palette[memberCount % paletteSize]`. -/
def pickColor (usedColors : Finset String) (memberCount : Nat) : String :=
  match userColors.filter (fun c => decide (c ∉ usedColors)) with
  | c :: _ => c
  | [] => userColors.getD (memberCount % userColors.length) ""

/-- `addUser(roomId, socketId, userInfo)`: get or create the room, pick
a color (member count taken before the user is added), mark the color
used, build the user record, and register it in the room's user map. -/
def addUser (rm : RoomManager) (roomId : String) (socketId : String)
    (userName : Option String) (now : Nat) : User × RoomManager :=
  let pair := getRoom rm roomId now
  let room := pair.1
  let color := pickColor room.usedColors room.users.length
  let user : User :=
    { id := socketId, name := jsNameOr userName (room.users.length + 1),
      color := color, cursor := none, joinedAt := now }
  (user,
   setRoom pair.2 roomId
     { room with usedColors := insert color room.usedColors,
                 users := mapSet room.users socketId user })

/-- Per-connection state of the gateway handler: `currentRoom` starts
as `'default'` and `currentUser` as `null` until `join-room` runs. -/
structure ConnState where
  currentRoom : String
  currentUser : Option User

deriving instance DecidableEq for ConnState

/-- The state of a connection that never sent `join-room`. -/
def initialConn : ConnState := { currentRoom := "default", currentUser := none }

/-- The client-supplied `draw-stroke` payload.  A JS object may or may
not carry each property; `…Field := some v` models a present property
(which the spread `...data` copies last, overriding the fields written
before it), `none` models an absent one. -/
structure ClientStrokeData where
  typeField : Option String := none
  idField : Option Nat := none
  timestampField : Option Nat := none
  userIdField : Option String := none
  userNameField : Option String := none
  points : List (Int × Int) := []
  color : String := ""
  size : Nat := 0
  tool : String := ""

deriving instance DecidableEq for ClientStrokeData

/-- The object `{type:'stroke', userId: socket.id, userName:
currentUser?.name, ...data}` built by the `draw-stroke` handler: fields
present in `data` win because the spread comes last. -/
def buildStrokeOperation (socketId : String) (currentUser : Option User)
    (data : ClientStrokeData) : Operation :=
  { type := data.typeField.getD "stroke"
    id := data.idField.getD 0
    timestamp := data.timestampField.getD 0
    userId := some (data.userIdField.getD socketId)
    userName :=
      match data.userNameField with
      | some n => some n
      | none => currentUser.map (fun u => u.name)
    points := data.points
    color := data.color
    size := data.size
    tool := data.tool }

/-- The `draw-stroke` handler: get (or lazily create) the current room,
append the built operation, store the room back.  The returned
operation is what `io.to(room).emit('draw-stroke', ...)` broadcasts. -/
def handleDrawStroke (rm : RoomManager) (conn : ConnState) (socketId : String)
    (data : ClientStrokeData) (now : Nat) : Operation × RoomManager :=
  let pair := getRoom rm conn.currentRoom now
  let res := addOperation pair.1.drawingState
    (buildStrokeOperation socketId conn.currentUser data) now
  (res.1, setRoom pair.2 conn.currentRoom { pair.1 with drawingState := res.2 })

/-- The `undo` handler: run `undo()` on the current room's state; the
first component is the message broadcast when non-`none` (the handler
emits nothing when the log returned `null`). -/
def handleUndoIntent (rm : RoomManager) (conn : ConnState) (now : Nat) :
    Option UndoMsg × RoomManager :=
  let pair := getRoom rm conn.currentRoom now
  let res := undo pair.1.drawingState
  (res.1, setRoom pair.2 conn.currentRoom { pair.1 with drawingState := res.2 })

/-- The `redo` handler, analogous to the `undo` handler. -/
def handleRedoIntent (rm : RoomManager) (conn : ConnState) (now : Nat) :
    Option UndoMsg × RoomManager :=
  let pair := getRoom rm conn.currentRoom now
  let res := redo pair.1.drawingState
  (res.1, setRoom pair.2 conn.currentRoom { pair.1 with drawingState := res.2 })

/-- The `clear-canvas` handler: append a clear operation to the current
room's state and broadcast it. -/
def handleClearIntent (rm : RoomManager) (conn : ConnState) (now : Nat) :
    Operation × RoomManager :=
  let pair := getRoom rm conn.currentRoom now
  let res := clear pair.1.drawingState now
  (res.1, setRoom pair.2 conn.currentRoom { pair.1 with drawingState := res.2 })

/-- The thirteen socket ids of the palette-exhaustion scenario. -/
def joinIds : List String :=
  ["s1", "s2", "s3", "s4", "s5", "s6", "s7", "s8", "s9", "s10", "s11", "s12", "s13"]

/-- Manager after thirteen joins to room `"r"` on a 12-color palette. -/
def rm13 : RoomManager :=
  joinIds.foldl (fun acc sid => (addUser acc "r" sid none 0).2) { rooms := [] }

/-- A client payload that smuggles identity fields: the spread
`...data` writes them after the server-set ones. -/
def evilData : ClientStrokeData :=
  { userIdField := some "evil", userNameField := some "mallory" }

/-- The registered user of the submitting connection. -/
def aliceUser : User := { id := "sock-1", name := "alice", color := "#FF6B6B" }

/-- A connection joined to room `"r"` as `aliceUser`. -/
def aliceConn : ConnState := { currentRoom := "r", currentUser := some aliceUser }

/-- C1: appending via `addOperation` or `clear` empties the whole
tombstone set; concretely, from `[A(0), B(1)]` with id 1 tombstoned,
appending C yields history ids `[0,1,2]`, an empty tombstone set, and
all three operations active. -/
theorem append_resets_tombstones (s : DrawingState) (op : Operation) (now : Nat) :
    (addOperation s op now).2.undoneOperations = ∅
    ∧ (clear s now).2.undoneOperations = ∅
    ∧ (addOperation s op now).2.operations = s.operations ++ [(addOperation s op now).1]
    ∧ (clear s now).2.operations = s.operations ++ [(clear s now).1]
    ∧ sAB.undoneOperations = ∅
    ∧ sABu.undoneOperations = {1}
    ∧ sABC.operations.map (fun o => o.id) = [0, 1, 2]
    ∧ sABC.undoneOperations = ∅
    ∧ getActiveOperations sABC = sABC.operations := by
  refine ⟨rfl, rfl, rfl, rfl, ?_, ?_, ?_, ?_, ?_⟩ <;> decide

lemma undo_eq_of_find_some (s : DrawingState) (op : Operation)
    (hfind : s.operations.reverse.find? (fun o => decide (o.id ∉ s.undoneOperations)) = some op) :
    undo s = (some { type := "undo", operationId := op.id },
              { s with undoneOperations := insert op.id s.undoneOperations }) := by
  unfold undo
  rw [hfind]

lemma undo_eq_of_find_none (s : DrawingState)
    (hfind : s.operations.reverse.find? (fun o => decide (o.id ∉ s.undoneOperations)) = none) :
    undo s = (none, s) := by
  unfold undo
  rw [hfind]

lemma find_reverse_split {α : Type} (p : α → Bool) (l : List α) (x : α)
    (h : l.reverse.find? p = some x) :
    ∃ l₁ l₂, l = l₁ ++ x :: l₂ ∧ p x = true ∧ ∀ y ∈ l₂, p y = false := by
  induction l using List.reverseRecOn with
  | nil => simp at h
  | append_singleton as a ih =>
    rw [List.reverse_append] at h
    simp only [List.reverse_cons, List.reverse_nil, List.nil_append,
      List.singleton_append] at h
    cases hpa : p a with
    | true =>
      rw [List.find?_cons_of_pos _ hpa] at h
      obtain rfl : a = x := by injection h
      exact ⟨as, [], rfl, hpa, by simp⟩
    | false =>
      rw [List.find?_cons_of_neg _ (by simp [hpa])] at h
      obtain ⟨l₁, l₂, rfl, hx, hl₂⟩ := ih h
      refine ⟨l₁, l₂ ++ [a], by simp, hx, ?_⟩
      intro y hy
      rcases List.mem_append.mp hy with h1 | h1
      · exact hl₂ y h1
      · simp only [List.mem_singleton] at h1
        rw [h1]
        exact hpa

/-- C2: `undo()` returns `none` exactly when every logged operation is
already tombstoned (in particular when the log is empty); when it
returns an id, that id belongs to the last entry in history order whose
id is not tombstoned (everything after it is tombstoned), and the entry
is tombstoned by the call.  Concretely, on appended ids `[0,1,2]` four
successive `undo()` calls yield `2`, `1`, `0`, `none`. -/
theorem undo_picks_latest_visible (s : DrawingState) :
    ((undo s).1 = none ↔ ∀ op ∈ s.operations, op.id ∈ s.undoneOperations)
    ∧ (∀ msg, (undo s).1 = some msg →
        msg.type = "undo"
        ∧ (undo s).2.undoneOperations = insert msg.operationId s.undoneOperations
        ∧ (undo s).2.operations = s.operations
        ∧ ∃ l₁ op l₂, s.operations = l₁ ++ op :: l₂
            ∧ op.id = msg.operationId
            ∧ op.id ∉ s.undoneOperations
            ∧ ∀ later ∈ l₂, later.id ∈ s.undoneOperations)
    ∧ (undo s012).1 = some { type := "undo", operationId := 2 }
    ∧ (undo (undo s012).2).1 = some { type := "undo", operationId := 1 }
    ∧ (undo (undo (undo s012).2).2).1 = some { type := "undo", operationId := 0 }
    ∧ (undo t012).1 = none := by
  refine ⟨?_, ?_, by decide, by decide, by decide, by decide⟩
  · cases hfind : s.operations.reverse.find?
        (fun o => decide (o.id ∉ s.undoneOperations)) with
    | none =>
      rw [undo_eq_of_find_none s hfind]
      simp only [true_iff]
      intro op hop
      have h2 := List.find?_eq_none.mp hfind op (List.mem_reverse.mpr hop)
      simpa using h2
    | some op =>
      rw [undo_eq_of_find_some s op hfind]
      constructor
      · intro h
        exact absurd h (by simp)
      · intro hall
        have hp := List.find?_some hfind
        have hmem := List.mem_of_find?_eq_some hfind
        have hnot : op.id ∉ s.undoneOperations := by simpa using hp
        exact absurd (hall op (List.mem_reverse.mp hmem)) hnot
  · intro msg hmsg
    cases hfind : s.operations.reverse.find?
        (fun o => decide (o.id ∉ s.undoneOperations)) with
    | none =>
      rw [undo_eq_of_find_none s hfind] at hmsg
      exact absurd hmsg (by simp)
    | some op =>
      rw [undo_eq_of_find_some s op hfind] at hmsg
      obtain rfl : ({ type := "undo", operationId := op.id } : UndoMsg) = msg := by
        injection hmsg
      rw [undo_eq_of_find_some s op hfind]
      obtain ⟨l₁, l₂, hsplit, hx, hl₂⟩ := find_reverse_split _ _ _ hfind
      refine ⟨rfl, rfl, rfl, l₁, op, l₂, hsplit, rfl, by simpa using hx, ?_⟩
      intro later hlater
      have := hl₂ later hlater
      simpa using this

/-- Closed instance of `undo_picks_latest_visible`: on the empty log,
`undo()` is a no-op returning `none`. -/
theorem undo_picks_latest_visible_inst : (undo initialState).1 = none :=
  (undo_picks_latest_visible initialState).1.mpr (by simp [initialState])

lemma redoScan_from_ge (ops : List Operation) (undone : Finset Nat) :
    ∀ a : Int, a ≤ ops.foldl (redoScanStep undone) a := by
  induction ops with
  | nil => intro a; simp
  | cons op t ih =>
    intro a
    simp only [List.foldl_cons, redoScanStep]
    by_cases h : op.id ∈ undone ∧ (op.id : Int) > a
    · rw [if_pos h]
      exact le_trans (le_of_lt h.2) (ih _)
    · rw [if_neg h]
      exact ih a

lemma redoScan_from_ub (ops : List Operation) (undone : Finset Nat) :
    ∀ a : Int, ∀ op ∈ ops, op.id ∈ undone →
      (op.id : Int) ≤ ops.foldl (redoScanStep undone) a := by
  induction ops with
  | nil => intro a op h; simp at h
  | cons op t ih =>
    intro a op2 hmem hund
    simp only [List.foldl_cons]
    rcases List.mem_cons.mp hmem with rfl | hmem2
    · by_cases h : op2.id ∈ undone ∧ (op2.id : Int) > a
      · rw [show redoScanStep undone a op2 = (op2.id : Int) from if_pos h]
        exact redoScan_from_ge t undone _
      · have hle : (op2.id : Int) ≤ a := not_lt.mp (fun hgt => h ⟨hund, hgt⟩)
        rw [show redoScanStep undone a op2 = a from if_neg h]
        exact le_trans hle (redoScan_from_ge t undone a)
    · exact ih _ op2 hmem2 hund

lemma redoScan_from_cases (ops : List Operation) (undone : Finset Nat) :
    ∀ a : Int, ops.foldl (redoScanStep undone) a = a
      ∨ ∃ op ∈ ops, op.id ∈ undone ∧ ops.foldl (redoScanStep undone) a = (op.id : Int) := by
  induction ops with
  | nil => intro a; left; rfl
  | cons op t ih =>
    intro a
    simp only [List.foldl_cons]
    by_cases h : op.id ∈ undone ∧ (op.id : Int) > a
    · rw [show redoScanStep undone a op = (op.id : Int) from if_pos h]
      rcases ih (op.id : Int) with heq | ⟨op2, hm, hu, heq⟩
      · exact Or.inr ⟨op, List.mem_cons_self op t, h.1, heq⟩
      · exact Or.inr ⟨op2, List.mem_cons_of_mem _ hm, hu, heq⟩
    · rw [show redoScanStep undone a op = a from if_neg h]
      rcases ih a with heq | ⟨op2, hm, hu, heq⟩
      · exact Or.inl heq
      · exact Or.inr ⟨op2, List.mem_cons_of_mem _ hm, hu, heq⟩

lemma redoScan_of_empty (ops : List Operation) : redoScan ops ∅ = -1 := by
  rcases redoScan_from_cases ops ∅ (-1) with h | ⟨op, _, hu, _⟩
  · exact h
  · exact absurd hu (Finset.not_mem_empty _)

lemma redoScan_eq_max (ops : List Operation) (undone : Finset Nat)
    (hsub : ∀ i ∈ undone, i ∈ ops.map (fun o => o.id)) (hne : undone.Nonempty) :
    redoScan ops undone = ((undone.max' hne : Nat) : Int) := by
  have hub : ∀ i ∈ undone, (i : Int) ≤ redoScan ops undone := by
    intro i hi
    obtain ⟨op, hop, hid⟩ := List.mem_map.mp (hsub i hi)
    have := redoScan_from_ub ops undone (-1) op hop (by rw [hid]; exact hi)
    rw [hid] at this
    exact this
  have h1 : ((undone.max' hne : Nat) : Int) ≤ redoScan ops undone :=
    hub _ (undone.max'_mem hne)
  rcases redoScan_from_cases ops undone (-1) with heq | ⟨op, _, hu, heq⟩
  · exfalso
    rw [redoScan] at h1
    rw [heq] at h1
    have h0 : (0 : Int) ≤ ((undone.max' hne : Nat) : Int) := Int.natCast_nonneg _
    omega
  · rw [redoScan] at h1 ⊢
    rw [heq] at h1 ⊢
    have h2 : op.id ≤ undone.max' hne := undone.le_max' _ hu
    have h3 : undone.max' hne ≤ op.id := by exact_mod_cast h1
    rw [le_antisymm h3 h2]

lemma redo_of_empty_tombstones (s : DrawingState)
    (h : s.undoneOperations = ∅) : redo s = (none, s) := by
  unfold redo
  rw [h, redoScan_of_empty]
  simp

lemma redo_of_nonempty (s : DrawingState)
    (hsub : ∀ i ∈ s.undoneOperations, i ∈ s.operations.map (fun o => o.id))
    (hne : s.undoneOperations.Nonempty) :
    redo s = (some { type := "redo", operationId := s.undoneOperations.max' hne },
              { s with undoneOperations :=
                  s.undoneOperations.erase (s.undoneOperations.max' hne) }) := by
  unfold redo
  rw [redoScan_eq_max s.operations s.undoneOperations hsub hne]
  have hpos : (((s.undoneOperations.max' hne : Nat) : Int)) ≠ -1 := by
    have : (0 : Int) ≤ ((s.undoneOperations.max' hne : Nat) : Int) := Int.natCast_nonneg _
    omega
  rw [if_pos hpos]
  simp

/-- C3: when the tombstone set is a subset of the logged ids (the
documented invariant, maintained by every reachable state), `redo()`
returns `none` and changes nothing exactly when the tombstone set is
empty, and otherwise removes and returns the maximum tombstoned id.
Concretely, after tombstoning `{0,1,2}` four successive `redo()` calls
yield `2`, `1`, `0`, `none`. -/
theorem redo_removes_max_tombstone (s : DrawingState)
    (hsub : ∀ i ∈ s.undoneOperations, i ∈ s.operations.map (fun o => o.id)) :
    (s.undoneOperations = ∅ → redo s = (none, s))
    ∧ (∀ hne : s.undoneOperations.Nonempty,
        (redo s).1 = some { type := "redo", operationId := s.undoneOperations.max' hne }
        ∧ (redo s).2.undoneOperations =
            s.undoneOperations.erase (s.undoneOperations.max' hne)
        ∧ (redo s).2.operations = s.operations)
    ∧ (redo t012).1 = some { type := "redo", operationId := 2 }
    ∧ (redo (redo t012).2).1 = some { type := "redo", operationId := 1 }
    ∧ (redo (redo (redo t012).2).2).1 = some { type := "redo", operationId := 0 }
    ∧ (redo (redo (redo (redo t012).2).2).2).1 = none := by
  refine ⟨redo_of_empty_tombstones s, ?_, by decide, by decide, by decide, by decide⟩
  intro hne
  rw [redo_of_nonempty s hsub hne]
  exact ⟨rfl, rfl, rfl⟩

/-- Closed instance of `redo_removes_max_tombstone`: with an empty
tombstone set, `redo()` is a no-op returning `none`. -/
theorem redo_removes_max_tombstone_inst : redo initialState = (none, initialState) :=
  (redo_removes_max_tombstone initialState (by decide)).1 rfl

lemma undo_preserves (s : DrawingState) :
    (undo s).2.operations = s.operations
    ∧ (undo s).2.operationCounter = s.operationCounter := by
  cases hfind : s.operations.reverse.find?
      (fun o => decide (o.id ∉ s.undoneOperations)) with
  | none => rw [undo_eq_of_find_none s hfind]; exact ⟨rfl, rfl⟩
  | some op => rw [undo_eq_of_find_some s op hfind]; exact ⟨rfl, rfl⟩

lemma redo_eq_of_scan_eq (s : DrawingState)
    (h : redoScan s.operations s.undoneOperations = -1) : redo s = (none, s) := by
  unfold redo
  rw [h]
  simp

lemma redo_eq_of_scan_ne (s : DrawingState)
    (h : redoScan s.operations s.undoneOperations ≠ -1) :
    redo s = (some { type := "redo",
                     operationId := (redoScan s.operations s.undoneOperations).toNat },
              { s with
                undoneOperations :=
                  s.undoneOperations.erase (redoScan s.operations s.undoneOperations).toNat }) := by
  unfold redo
  rw [if_pos h]

lemma redo_preserves (s : DrawingState) :
    (redo s).2.operations = s.operations
    ∧ (redo s).2.operationCounter = s.operationCounter := by
  by_cases h : redoScan s.operations s.undoneOperations = -1
  · rw [redo_eq_of_scan_eq s h]; exact ⟨rfl, rfl⟩
  · rw [redo_eq_of_scan_ne s h]; exact ⟨rfl, rfl⟩

lemma foldl_applyEvent_inv {P : DrawingState → Prop}
    (step : ∀ s e, P s → P (applyEvent s e)) :
    ∀ (es : List DrawEvent) (s : DrawingState), P s → P (es.foldl applyEvent s) := by
  intro es
  induction es with
  | nil => intro s h; exact h
  | cons e t ih => intro s h; exact ih _ (step s e h)

/-- C4: from the constructor state, any sequence of intents — strokes
and clears share one counter, undo/redo touch neither list nor counter —
leaves the history's ids equal to `[0, 1, ..., counter-1]`: consecutive,
strictly increasing from 0 with no gaps, and independent of any
client-supplied `id` field (the event's operation argument is arbitrary,
and `addOperation` overwrites its `id`). -/
theorem ids_are_consecutive_from_zero (es : List DrawEvent) :
    (runEvents es).operations.map (fun o => o.id)
      = List.range (runEvents es).operationCounter := by
  refine foldl_applyEvent_inv
    (P := fun t => t.operations.map (fun o => o.id) = List.range t.operationCounter)
    ?_ es initialState (by simp [initialState])
  intro s e h
  cases e with
  | add op now =>
      simp only [applyEvent, addOperation, List.map_append, List.map_cons, List.map_nil, h,
        List.range_succ]
  | clearCanvas now =>
      simp only [applyEvent, clear, List.map_append, List.map_cons, List.map_nil, h,
        List.range_succ]
  | undoReq =>
      rw [show (applyEvent s DrawEvent.undoReq) = (undo s).2 from rfl,
        (undo_preserves s).1, (undo_preserves s).2]
      exact h
  | redoReq =>
      rw [show (applyEvent s DrawEvent.redoReq) = (redo s).2 from rfl,
        (redo_preserves s).1, (redo_preserves s).2]
      exact h

/-- C7: after any sequence of intents from the constructor state, the
tombstone set is a subset of the ids present in the history; and for
every state, `undo`/`redo` leave the operation list and the id counter
untouched — they mutate tombstone-set membership only. -/
theorem tombstones_subset_log_ids (es : List DrawEvent) (s : DrawingState) :
    (∀ i ∈ (runEvents es).undoneOperations,
        i ∈ (runEvents es).operations.map (fun o => o.id))
    ∧ (undo s).2.operations = s.operations
    ∧ (undo s).2.operationCounter = s.operationCounter
    ∧ (redo s).2.operations = s.operations
    ∧ (redo s).2.operationCounter = s.operationCounter := by
  refine ⟨?_, (undo_preserves s).1, (undo_preserves s).2,
    (redo_preserves s).1, (redo_preserves s).2⟩
  refine foldl_applyEvent_inv
    (P := fun t => ∀ i ∈ t.undoneOperations, i ∈ t.operations.map (fun o => o.id))
    ?_ es initialState (by simp [initialState])
  intro t e h
  cases e with
  | add op now => simp [applyEvent, addOperation]
  | clearCanvas now => simp [applyEvent, clear]
  | undoReq =>
      rw [show (applyEvent t DrawEvent.undoReq) = (undo t).2 from rfl]
      cases hfind : t.operations.reverse.find?
          (fun o => decide (o.id ∉ t.undoneOperations)) with
      | none =>
          rw [undo_eq_of_find_none t hfind]
          exact h
      | some op =>
          rw [undo_eq_of_find_some t op hfind]
          intro i hi
          rcases Finset.mem_insert.mp hi with rfl | hi2
          · have hmem := List.mem_of_find?_eq_some hfind
            exact List.mem_map.mpr ⟨op, List.mem_reverse.mp hmem, rfl⟩
          · exact h i hi2
  | redoReq =>
      rw [show (applyEvent t DrawEvent.redoReq) = (redo t).2 from rfl]
      by_cases hscan : redoScan t.operations t.undoneOperations = -1
      · rw [redo_eq_of_scan_eq t hscan]
        exact h
      · rw [redo_eq_of_scan_ne t hscan]
        intro i hi
        exact h i (Finset.mem_of_mem_erase hi)

/-- Closed instance of `tombstones_subset_log_ids`: after one undo on
`[A(0), B(1)]`, the tombstone `{1}` is among the logged ids, and the
undo left the history untouched. -/
theorem tombstones_subset_log_ids_inst :
    (1 ∈ sABu.operations.map (fun o => o.id)) ∧ (undo sAB).2.operations = sAB.operations := by
  have h := tombstones_subset_log_ids
    [DrawEvent.add stroke0 0, DrawEvent.add stroke0 0, DrawEvent.undoReq] sAB
  exact ⟨h.1 1 (by decide), h.2.1⟩

/-- C6: in the full redraw, a non-tombstoned `clear` resets the
accumulated surface (everything folded before it is discarded), a
tombstoned operation of either kind contributes nothing, and
`handleUndo` never deletes log entries.  Concretely, on log
`[stroke A(0), clear(1)]` the fold shows nothing with an empty tombstone
set, and shows A again once id 1 is tombstoned. -/
theorem clear_resets_fold (l₁ l₂ : List Operation) (cOp : Operation) (undone : Finset Nat) :
    (cOp.type = "clear" → cOp.id ∉ undone →
      redrawCanvas (l₁ ++ cOp :: l₂) undone = redrawCanvas l₂ undone)
    ∧ (∀ op : Operation, op.id ∈ undone →
      redrawCanvas (l₁ ++ op :: l₂) undone = redrawCanvas (l₁ ++ l₂) undone)
    ∧ (∀ (c : ClientCanvas) (operationId : Nat),
      (handleUndo c operationId).operations = c.operations)
    ∧ redrawCanvas [opA6, clearOp6] ∅ = []
    ∧ redrawCanvas [opA6, clearOp6] (insert 1 ∅) = [renderedA6] := by
  refine ⟨?_, ?_, fun c operationId => rfl, by decide, by decide⟩
  · intro htype hid
    unfold redrawCanvas
    rw [List.foldl_append, List.foldl_cons]
    have hstep : renderStep undone (List.foldl (renderStep undone) [] l₁) cOp = [] := by
      unfold renderStep
      rw [if_neg hid, if_neg (by rw [htype]; decide), if_pos htype]
    rw [hstep]
  · intro op hid
    unfold redrawCanvas
    rw [List.foldl_append, List.foldl_cons, List.foldl_append]
    have hstep : renderStep undone (List.foldl (renderStep undone) [] l₁) op
        = List.foldl (renderStep undone) [] l₁ := by
      unfold renderStep
      rw [if_pos hid]
    rw [hstep]

/-- Closed instance of `clear_resets_fold`: the non-tombstoned clear at
the end of `[A(0), clear(1)]` wipes the fold down to the empty suffix. -/
theorem clear_resets_fold_inst :
    redrawCanvas [opA6, clearOp6] ∅ = redrawCanvas [] ∅ :=
  (clear_resets_fold [opA6] [] clearOp6 ∅).1 rfl (by decide)

lemma lookup_append_right {β : Type} (l : List (String × β)) (k : String) (v : β)
    (h : l.lookup k = none) : (l ++ [(k, v)]).lookup k = some v := by
  induction l with
  | nil => simp [List.lookup]
  | cons p t ih =>
    obtain ⟨k2, v2⟩ := p
    simp only [List.lookup] at h
    simp only [List.cons_append, List.lookup]
    cases hbeq : (k == k2) with
    | true => rw [hbeq] at h; simp at h
    | false =>
      rw [hbeq] at h
      exact ih h

lemma lookup_map_replace {β : Type}
    (l : List (String × β)) (k : String) (r : β)
    (h : (l.lookup k).isSome) :
    ((l.map (fun p => if p.1 = k then (k, r) else p)).lookup k) = some r := by
  induction l with
  | nil => simp [List.lookup] at h
  | cons p t ih =>
    obtain ⟨k2, v2⟩ := p
    by_cases hk : k2 = k
    · subst hk
      simp only [List.map_cons, if_pos rfl]
      simp [List.lookup]
    · simp only [List.map_cons] at *
      rw [if_neg (by simpa using hk)]
      simp only [List.lookup] at h ⊢
      have hbeq : (k == k2) = false := by simp [Ne.symm hk]
      rw [hbeq] at h ⊢
      exact ih h

lemma getRoom_lookup_self (rm : RoomManager) (roomId : String) (now : Nat) :
    ((getRoom rm roomId now).2).rooms.lookup roomId = some (getRoom rm roomId now).1 := by
  unfold getRoom
  cases h : rm.rooms.lookup roomId with
  | some room => simp [h]
  | none =>
    simp only [h]
    exact lookup_append_right rm.rooms roomId _ h

lemma setRoom_lookup (rm : RoomManager) (roomId : String) (room : Room)
    (h : (rm.rooms.lookup roomId).isSome) :
    (setRoom rm roomId room).rooms.lookup roomId = some room :=
  lookup_map_replace rm.rooms roomId room h

lemma handler_room_lookup (rm : RoomManager) (roomId : String) (now : Nat) (room : Room) :
    (setRoom (getRoom rm roomId now).2 roomId room).rooms.lookup roomId = some room := by
  apply setRoom_lookup
  rw [getRoom_lookup_self]
  rfl

lemma filter_head_split {α : Type} (p : α → Bool) (l : List α) (c : α) (cs : List α)
    (h : l.filter p = c :: cs) :
    ∃ l₁ l₂, l = l₁ ++ c :: l₂ ∧ p c = true ∧ ∀ y ∈ l₁, p y = false := by
  induction l generalizing cs with
  | nil => simp at h
  | cons a t ih =>
    rw [List.filter_cons] at h
    cases hpa : p a with
    | true =>
      rw [hpa] at h
      simp only [if_pos] at h
      obtain ⟨rfl, _⟩ : a = c ∧ t.filter p = cs := by
        constructor
        · injection h
        · injection h
      exact ⟨[], t, rfl, hpa, by simp⟩
    | false =>
      rw [hpa] at h
      simp only [Bool.false_eq_true, if_false] at h
      obtain ⟨l₁, l₂, rfl, hc, hl₁⟩ := ih cs h
      refine ⟨a :: l₁, l₂, rfl, hc, ?_⟩
      intro y hy
      rcases List.mem_cons.mp hy with rfl | hy2
      · exact hpa
      · exact hl₁ y hy2

/-- C9: `addUser` assigns `pickColor` of the used-color set and the
member count before insertion; `pickColor` yields the first palette
color not in the used set when one exists, and otherwise (palette
exhausted) the documented fallback `palette[memberCount % paletteSize]`
without failing.  Concretely, after thirteen joins the thirteenth user
receives `#FF6B6B`, the color already held by the first user. -/
theorem color_assignment_first_free (used : Finset String) (n : Nat) (rm : RoomManager)
    (roomId socketId : String) (userName : Option String) (now : Nat) :
    (addUser rm roomId socketId userName now).1.color
      = pickColor (getRoom rm roomId now).1.usedColors (getRoom rm roomId now).1.users.length
    ∧ ((∃ c ∈ userColors, c ∉ used) →
      ∃ l₁ l₂, userColors = l₁ ++ pickColor used n :: l₂
        ∧ pickColor used n ∉ used
        ∧ ∀ c ∈ l₁, c ∈ used)
    ∧ ((∀ c ∈ userColors, c ∈ used) →
      pickColor used n = userColors.getD (n % userColors.length) "")
    ∧ ((rm13.rooms.lookup "r").bind (fun r => r.users.lookup "s1")).map (fun u => u.color)
        = some "#FF6B6B"
    ∧ ((rm13.rooms.lookup "r").bind (fun r => r.users.lookup "s13")).map (fun u => u.color)
        = some "#FF6B6B" := by
  refine ⟨rfl, ?_, ?_, by decide, by decide⟩
  · rintro ⟨c0, hc0mem, hc0not⟩
    cases hf : userColors.filter (fun c => decide (c ∉ used)) with
    | nil =>
      exfalso
      have hmem : c0 ∈ userColors.filter (fun c => decide (c ∉ used)) :=
        List.mem_filter.mpr ⟨hc0mem, by simpa using hc0not⟩
      rw [hf] at hmem
      simp at hmem
    | cons c cs =>
      have hpick : pickColor used n = c := by unfold pickColor; rw [hf]
      obtain ⟨l₁, l₂, hsplit, hc, hl₁⟩ := filter_head_split _ _ _ _ hf
      refine ⟨l₁, l₂, by rw [hpick]; exact hsplit, by rw [hpick]; simpa using hc, ?_⟩
      intro d hd
      have := hl₁ d hd
      simpa using this
  · intro hall
    have hf : userColors.filter (fun c => decide (c ∉ used)) = [] := by
      rw [List.filter_eq_nil_iff]
      intro c hc
      simpa using hall c hc
    unfold pickColor
    rw [hf]

/-- Closed instance of `color_assignment_first_free`: with every palette
color in use, the thirteenth member (count 12) falls back to
`palette[12 % 12] = palette[0]`. -/
theorem color_assignment_first_free_inst :
    pickColor userColors.toFinset 12 = userColors.getD (12 % userColors.length) "" :=
  (color_assignment_first_free userColors.toFinset 12 { rooms := [] } "r" "s" none 0).2.2.1
    (by decide)

/-- C5 counterexample: a `draw-stroke` payload carrying `userId` and
`userName` properties overrides the server-set identity, because
`{type, userId: socket.id, userName, ...data}` spreads the client data
last.  The stored/broadcast operation carries the payload's identity,
not the connection's. -/
theorem client_can_override_identity :
    (handleDrawStroke { rooms := [] } aliceConn "sock-1" evilData 0).1.userId = some "evil"
    ∧ (handleDrawStroke { rooms := [] } aliceConn "sock-1" evilData 0).1.userId
        ≠ some "sock-1"
    ∧ (handleDrawStroke { rooms := [] } aliceConn "sock-1" evilData 0).1.userName
        = some "mallory"
    ∧ (handleDrawStroke { rooms := [] } aliceConn "sock-1" evilData 0).1.userName
        ≠ some "alice"
    ∧ ((handleDrawStroke { rooms := [] } aliceConn "sock-1" evilData 0).2.rooms.lookup
        "r").map (fun r => r.drawingState.operations.map (fun o => o.userId))
        = some [some "evil"] := by
  decide

/-- C5 (amended): when the client payload carries no `userId` or
`userName` properties, the stored operation is tagged with the
connection's socket id and the registered user's display name, and it is
what gets appended to the room's history (the broadcast operation is the
stored one). -/
theorem identity_from_server_when_not_overridden (rm : RoomManager) (conn : ConnState)
    (socketId : String) (data : ClientStrokeData) (now : Nat) (u : User)
    (hid : data.userIdField = none) (hname : data.userNameField = none)
    (hu : conn.currentUser = some u) :
    (handleDrawStroke rm conn socketId data now).1.userId = some socketId
    ∧ (handleDrawStroke rm conn socketId data now).1.userName = some u.name
    ∧ (handleDrawStroke rm conn socketId data now).2.rooms.lookup conn.currentRoom
        = some { (getRoom rm conn.currentRoom now).1 with
                 drawingState :=
                   (addOperation (getRoom rm conn.currentRoom now).1.drawingState
                     (buildStrokeOperation socketId conn.currentUser data) now).2 }
    ∧ ((addOperation (getRoom rm conn.currentRoom now).1.drawingState
          (buildStrokeOperation socketId conn.currentUser data) now).2).operations
        = (getRoom rm conn.currentRoom now).1.drawingState.operations
          ++ [(handleDrawStroke rm conn socketId data now).1] := by
  refine ⟨?_, ?_, ?_, rfl⟩
  · simp [handleDrawStroke, addOperation, buildStrokeOperation, hid]
  · simp [handleDrawStroke, addOperation, buildStrokeOperation, hname, hu]
  · exact handler_room_lookup rm conn.currentRoom now _

/-- Closed instance of `identity_from_server_when_not_overridden`: an
honest payload gets tagged with the sender's socket id. -/
theorem identity_from_server_inst :
    (handleDrawStroke { rooms := [] } aliceConn "sock-1" {} 0).1.userId = some "sock-1" :=
  (identity_from_server_when_not_overridden { rooms := [] } aliceConn "sock-1" {} 0
    aliceUser rfl rfl rfl).1

lemma undo_none_of_all_tombstoned (s : DrawingState)
    (h : ∀ op ∈ s.operations, op.id ∈ s.undoneOperations) : undo s = (none, s) := by
  apply undo_eq_of_find_none
  exact List.find?_eq_none.mpr
    (fun op hop => by simpa using h op (List.mem_reverse.mp hop))

/-- C8: when `undo()` finds no eligible operation (log empty or fully
tombstoned) it returns `null` and leaves the state — list, tombstone
set, counter — untouched; likewise `redo()` on an empty tombstone set;
and the gateway handlers then broadcast nothing (their emitted message
is `none`) and raise no error. -/
theorem noop_undo_redo_silent (s : DrawingState) (rm : RoomManager) (conn : ConnState)
    (now : Nat) :
    ((∀ op ∈ s.operations, op.id ∈ s.undoneOperations) → undo s = (none, s))
    ∧ (s.undoneOperations = ∅ → redo s = (none, s))
    ∧ ((∀ op ∈ (getRoom rm conn.currentRoom now).1.drawingState.operations,
          op.id ∈ (getRoom rm conn.currentRoom now).1.drawingState.undoneOperations) →
        (handleUndoIntent rm conn now).1 = none)
    ∧ ((getRoom rm conn.currentRoom now).1.drawingState.undoneOperations = ∅ →
        (handleRedoIntent rm conn now).1 = none) := by
  refine ⟨undo_none_of_all_tombstoned s, redo_of_empty_tombstones s, ?_, ?_⟩
  · intro h
    show (undo (getRoom rm conn.currentRoom now).1.drawingState).1 = none
    rw [undo_none_of_all_tombstoned _ h]
  · intro h
    show (redo (getRoom rm conn.currentRoom now).1.drawingState).1 = none
    rw [redo_of_empty_tombstones _ h]

/-- Closed instance of `noop_undo_redo_silent`: undo on the fresh state
is a silent no-op, and the handler for a fresh default room emits
nothing. -/
theorem noop_undo_redo_silent_inst :
    undo initialState = (none, initialState)
    ∧ (handleUndoIntent { rooms := [] } initialConn 0).1 = none := by
  have h := noop_undo_redo_silent initialState { rooms := [] } initialConn 0
  exact ⟨h.1 (by simp [initialState]), h.2.2.1 (by decide)⟩

lemma getRoom_of_absent (rm : RoomManager) (roomId : String) (now : Nat)
    (h : rm.rooms.lookup roomId = none) :
    getRoom rm roomId now =
      ({ id := roomId, drawingState := initialState, users := [], usedColors := ∅,
         createdAt := now },
       { rooms := rm.rooms ++ [(roomId,
         { id := roomId, drawingState := initialState, users := [], usedColors := ∅,
           createdAt := now })] }) := by
  unfold getRoom
  rw [h]

/-- C10: a connection that never sent `join-room` has `currentRoom =
'default'` and no registered user; its `draw-stroke`, `clear-canvas`,
`undo` and `redo` intents are not rejected — they run against room
`'default'`, creating it lazily — and a stroke stored this way carries
an undefined (`none`) `userName`. -/
theorem intents_before_join_use_default_room (rm : RoomManager) (data : ClientStrokeData)
    (sid : String) (now : Nat)
    (habs : rm.rooms.lookup "default" = none)
    (hname : data.userNameField = none) :
    initialConn.currentRoom = "default"
    ∧ initialConn.currentUser = none
    ∧ (handleDrawStroke rm initialConn sid data now).1.userName = none
    ∧ (∃ r, (handleDrawStroke rm initialConn sid data now).2.rooms.lookup "default"
          = some r
        ∧ r.drawingState.operations = [(handleDrawStroke rm initialConn sid data now).1])
    ∧ (∃ r, (handleClearIntent rm initialConn now).2.rooms.lookup "default" = some r
        ∧ r.drawingState.operations = [(handleClearIntent rm initialConn now).1])
    ∧ ((handleUndoIntent rm initialConn now).2.rooms.lookup "default").isSome = true
    ∧ ((handleRedoIntent rm initialConn now).2.rooms.lookup "default").isSome = true := by
  refine ⟨rfl, rfl, ?_, ?_, ?_, ?_, ?_⟩
  · simp [handleDrawStroke, addOperation, buildStrokeOperation, hname, initialConn]
  · refine ⟨_, handler_room_lookup rm "default" now _, ?_⟩
    show ((getRoom rm "default" now).1.drawingState.operations ++ _) = _
    rw [getRoom_of_absent rm "default" now habs]
    rfl
  · refine ⟨_, handler_room_lookup rm "default" now _, ?_⟩
    show ((getRoom rm "default" now).1.drawingState.operations ++ _) = _
    rw [getRoom_of_absent rm "default" now habs]
    rfl
  · rw [show (handleUndoIntent rm initialConn now).2
        = setRoom (getRoom rm "default" now).2 "default"
            { (getRoom rm "default" now).1 with
              drawingState := (undo (getRoom rm "default" now).1.drawingState).2 }
      from rfl]
    rw [handler_room_lookup rm "default" now _]
    rfl
  · rw [show (handleRedoIntent rm initialConn now).2
        = setRoom (getRoom rm "default" now).2 "default"
            { (getRoom rm "default" now).1 with
              drawingState := (redo (getRoom rm "default" now).1.drawingState).2 }
      from rfl]
    rw [handler_room_lookup rm "default" now _]
    rfl

/-- Closed instance of `intents_before_join_use_default_room`: on a
fresh server, a stroke sent before any `join-room` is stored with an
undefined author name. -/
theorem intents_before_join_use_default_room_inst :
    (handleDrawStroke { rooms := [] } initialConn "s" {} 0).1.userName = none :=
  (intents_before_join_use_default_room { rooms := [] } {} "s" 0 rfl rfl).2.2.1
